import Mathlib

/-!
# Verification of the DoodleBUGS `GraphCanvas` reconciliation and coordinate core

Shallow embedding of `src/DoodleBUGS/src/components/canvas/GraphCanvas.vue`:
the element formatter (`formatElementsForCytoscape`), the reconciliation pass
(`syncGraphWithProps`), the panzoom controls (`zoomIn`, `zoomOut`, `resetView`,
`setZoomLevel` plus the `zoom`-event mirror), the drop-coordinate transform and
the drop-payload filter.

The Cytoscape rendering engine itself is external to the repository.  It is
modelled, from the specification's collaborator contract, as a plain store of
rendering elements supporting add / remove / query-by-id / get-set position /
get-set parent; every mutation the component performs on the store is recorded
in an operation log so that "zero add/remove/reposition/reparent operations"
style properties can be stated.  Numbers are embedded as rationals (`ℚ`).
-/

namespace GraphCanvas

/-- `NodeType` from `types`: the five node kinds. -/
inductive NodeType
  | stochastic
  | deterministic
  | constant
  | observed
  | plate
deriving DecidableEq, Repr

/-- A model-space point (`{x, y}` in the source). -/
@[ext]
structure Pos where
  x : ℚ
  y : ℚ
deriving DecidableEq, Repr

/-- `GraphNode`: id, nodeType, position, optional parent plate id, label. -/
structure GraphNode where
  id : String
  nodeType : NodeType
  position : Pos
  parent : Option String
  label : String
deriving DecidableEq, Repr

/-- `GraphEdge`: id, source and target node ids. -/
structure GraphEdge where
  id : String
  source : String
  target : String
deriving DecidableEq, Repr

/-- `GraphElement`: tagged union of a node and an edge (`el.type` tag). -/
inductive GraphElement
  | node (n : GraphNode)
  | edge (e : GraphEdge)
deriving DecidableEq, Repr

/-- `el.id` on either variant. -/
def GraphElement.id : GraphElement → String
  | .node n => n.id
  | .edge e => e.id

/-- `el.type === 'node'`. -/
def GraphElement.isNode : GraphElement → Bool
  | .node _ => true
  | .edge _ => false

/-- The `as GraphNode` cast after a successful `type === 'node'` check. -/
def GraphElement.asNode : GraphElement → Option GraphNode
  | .node n => some n
  | .edge _ => none

/-- A single validation error (opaque payload for this core). -/
structure ValidationError where
  message : String
deriving DecidableEq, Repr

/-- `Map<string, ValidationError[]>`, embedded as an association list. -/
abbrev ErrMap := List (String × List ValidationError)

/-- `errors.has(id)` on the validation map. -/
def hasKey (errors : ErrMap) (i : String) : Bool :=
  errors.any (fun pr => pr.1 == i)

/-- The derived edge classification (`relationshipType`). -/
inductive RelType
  | stochastic
  | deterministic
deriving DecidableEq, Repr

/-- The `data` payload handed to the rendering engine: the spread of the
source element plus the derived field (`hasError` for nodes,
`relationshipType` for edges). -/
inductive CyData
  | nodeData (n : GraphNode) (hErr : Bool)
  | edgeData (e : GraphEdge) (relationshipType : RelType)
deriving DecidableEq, Repr

/-- `data.id`. -/
def CyData.id : CyData → String
  | .nodeData n _ => n.id
  | .edgeData e _ => e.id

/-- `data.parent` (the spread node's `parent` field; edges have none). -/
def CyData.parentOf : CyData → Option String
  | .nodeData n _ => n.parent
  | .edgeData _ _ => none

/-- An `ElementDefinition` as produced by `formatElementsForCytoscape`:
`{group:'nodes', data, position}` or `{group:'edges', data}`. -/
inductive CyElement
  | nodeDef (data : CyData) (position : Pos)
  | edgeDef (data : CyData)
deriving DecidableEq, Repr

/-- `formattedEl.data.id`. -/
def CyElement.id : CyElement → String
  | .nodeDef d _ => d.id
  | .edgeDef d => d.id

/-- `formattedEl.data`. -/
def CyElement.data : CyElement → CyData
  | .nodeDef d _ => d
  | .edgeDef d => d

/-- The derived `hasError` flag carried by a formatted node definition. -/
def CyElement.errorFlag : CyElement → Bool
  | .nodeDef (.nodeData _ h) _ => h
  | _ => false

/-- The body of the `elements.map` closure of `formatElementsForCytoscape`
(the closure captures the whole `elements` list for the target lookup). -/
def formatOne (elements : List GraphElement) (errors : ErrMap) :
    GraphElement → CyElement
  | .node n => .nodeDef (.nodeData n (hasKey errors n.id)) n.position
  | .edge e =>
      let targetNode : Option GraphNode :=
        (elements.find? (fun el => el.id == e.target && el.isNode)).bind
          GraphElement.asNode
      let relType : RelType :=
        if targetNode.any (fun t =>
            t.nodeType == NodeType.stochastic || t.nodeType == NodeType.observed)
        then .stochastic else .deterministic
      .edgeDef (.edgeData e relType)

/-- `formatElementsForCytoscape(elements, errors)`. -/
def formatElementsForCytoscape (elements : List GraphElement) (errors : ErrMap) :
    List CyElement :=
  elements.map (formatOne elements errors)

/-- `group` of a stored rendering element. -/
inductive CyGroup
  | nodes
  | edges
deriving DecidableEq, Repr

/-- Modelled from the spec: a rendering element of the external rendering
engine (Cytoscape), per the §6 collaborator contract — it carries the id and
data payload, and, for nodes, the current position and current parent
reference. -/
structure RElem where
  group : CyGroup
  data : CyData
  position : Pos
  parent : Option String
deriving DecidableEq, Repr

/-- The engine's id of a stored element (`cyEl.id()`). -/
def RElem.id (r : RElem) : String := r.data.id

/-- An observable mutation applied to the rendering graph during a sync pass:
`cy.add`, `cyEl.remove()`, `cyEl.position(p)` and `cyEl.move({parent})`. -/
inductive Op
  | add (i : String)
  | remove (i : String)
  | reposition (i : String) (p : Pos)
  | reparent (i : String) (parent : Option String)
deriving DecidableEq, Repr

/-- Modelled from the spec: `cy.add(formattedEl)` materialises a formatted
definition as a stored rendering element (nodes take their initial position
and `data.parent`; edges have no position/parent). -/
def mkRElem : CyElement → RElem
  | .nodeDef d p => ⟨.nodes, d, p, d.parentOf⟩
  | .edgeDef d => ⟨.edges, d, ⟨0, 0⟩, none⟩

/-- Modelled from the spec: `cy.getElementById(i)` — the engine's
query-by-id on the element store. -/
def findById (es : List RElem) (i : String) : Option RElem :=
  es.find? (fun r => r.id == i)

/-- Modelled from the spec: an in-place mutation of the element the engine
resolved for an id (the engine keys elements by id, so the first store entry
with that id is the resolved one). -/
def setFirst (i : String) (r' : RElem) : List RElem → List RElem
  | [] => []
  | e :: es => if e.id == i then r' :: es else e :: setFirst i r' es

/-- The update branch of the sync loop, for an element that already exists:
unconditional `existingCyEl.data(formattedEl.data)`, then for node
definitions the conditional `position` write and the conditional
`move({parent})`, with the operations actually issued. -/
def updateExisting (r : RElem) (fe : CyElement) : RElem × List Op :=
  match fe with
  | .edgeDef d => ({ r with data := d }, [])
  | .nodeDef d p =>
      let r1 : RElem := { r with data := d }
      let step1 : RElem × List Op :=
        if p.x ≠ r.position.x ∨ p.y ≠ r.position.y then
          ({ r1 with position := p }, [Op.reposition fe.id p])
        else (r1, [])
      let currentParentId : Option String := r.parent
      if d.parentOf ≠ currentParentId then
        ({ step1.1 with parent := d.parentOf },
          step1.2 ++ [Op.reparent fe.id d.parentOf])
      else step1

/-- One iteration of the `formattedElements.forEach` loop of
`syncGraphWithProps`, over (store, operation log). -/
def syncStep (acc : List RElem × List Op) (fe : CyElement) :
    List RElem × List Op :=
  if fe.id = "" then acc
  else
    match findById acc.1 fe.id with
    | none => (acc.1 ++ [mkRElem fe], acc.2 ++ [Op.add fe.id])
    | some r =>
        let u := updateExisting r fe
        (setFirst fe.id u.1 acc.1, acc.2 ++ u.2)

/-- The store component of one loop iteration. -/
def syncStepE (es : List RElem) (fe : CyElement) : List RElem :=
  (syncStep (es, []) fe).1

/-- The operations issued by one loop iteration. -/
def syncStepOps (es : List RElem) (fe : CyElement) : List Op :=
  (syncStep (es, []) fe).2

/-- The operations issued by the whole loop, threading the store. -/
def syncFoldOps (es : List RElem) : List CyElement → List Op
  | [] => []
  | fe :: fes => syncStepOps es fe ++ syncFoldOps (syncStepE es fe) fes

/-- `syncGraphWithProps(elementsToSync, errorsToSync)` acting on the current
rendering-graph store `g`: format the incoming elements, remove every stored
element whose id is not among the incoming ids, then run the per-element
create/update loop.  Returns the resulting store and the full operation
log of the batch. -/
def syncGraphWithProps (g : List RElem) (elementsToSync : List GraphElement)
    (errorsToSync : ErrMap) : List RElem × List Op :=
  let formattedElements := formatElementsForCytoscape elementsToSync errorsToSync
  let newElementIds := elementsToSync.map GraphElement.id
  let removeOps :=
    (g.filter (fun r => !(newElementIds.contains r.id))).map
      (fun r => Op.remove r.id)
  let kept := g.filter (fun r => newElementIds.contains r.id)
  formattedElements.foldl syncStep (kept, removeOps)

/-! ## Viewport controller -/

/-- `minZoom = 0.1`. -/
def minZoom : ℚ := 0.1

/-- `maxZoom = 2`. -/
def maxZoom : ℚ := 2

/-- The viewport state: the engine's actual zoom (`cy.zoom()`) and the
component's reported zoom (`currentZoom` ref). -/
structure ViewState where
  engineZoom : ℚ
  currentZoom : ℚ
deriving DecidableEq, Repr

/-- The `cy.on('zoom', ...)` handler installed by the component: mirror the
engine's zoom into `currentZoom`. -/
def emitZoomEvent (s : ViewState) : ViewState :=
  { s with currentZoom := s.engineZoom }

/-- Modelled from the spec: `cy.zoom({level, renderedPosition})` — the engine
sets its zoom to `level` and synchronously raises its zoom-changed
notification, which the component's handler mirrors. -/
def cyZoomSet (s : ViewState) (level : ℚ) : ViewState :=
  emitZoomEvent { s with engineZoom := level }

/-- `zoomIn()`: `newZoom = min(cy.zoom() * 1.2, maxZoom)`, applied to the
engine, then `currentZoom.value = newZoom`. -/
def zoomIn (s : ViewState) : ViewState :=
  let newZoom := min (s.engineZoom * 1.2) maxZoom
  let s1 := cyZoomSet s newZoom
  { s1 with currentZoom := newZoom }

/-- `zoomOut()`: `newZoom = max(cy.zoom() / 1.2, minZoom)`. -/
def zoomOut (s : ViewState) : ViewState :=
  let newZoom := max (s.engineZoom / 1.2) minZoom
  let s1 := cyZoomSet s newZoom
  { s1 with currentZoom := newZoom }

/-- `resetView()`: `cy.fit()` (the engine picks some fit-to-content zoom,
here the parameter `fitZoom`, raising its zoom notification), then
`currentZoom.value = 1`. -/
def resetView (s : ViewState) (fitZoom : ℚ) : ViewState :=
  let s1 := cyZoomSet s fitZoom
  { s1 with currentZoom := 1 }

/-- `setZoomLevel(event)` with the slider value `v`: set the engine zoom to
`v`, then `currentZoom.value = v`. -/
def setZoomLevel (s : ViewState) (v : ℚ) : ViewState :=
  let s1 := cyZoomSet s v
  { s1 with currentZoom := v }

/-- A zoom change originating outside the four operations (wheel gesture,
…): the engine changes zoom and raises its notification, which the
installed `zoom` handler mirrors. -/
def externalZoom (s : ViewState) (v : ℚ) : ViewState :=
  cyZoomSet s v

/-- `n` successive `zoomIn()` calls. -/
def zoomInN (s : ViewState) : Nat → ViewState
  | 0 => s
  | Nat.succ k => zoomIn (zoomInN s k)

/-- `n` successive `zoomOut()` calls. -/
def zoomOutN (s : ViewState) : Nat → ViewState
  | 0 => s
  | Nat.succ k => zoomOut (zoomOutN s k)

/-! ## Coordinate transform and drop handling -/

/-- The drop listener's coordinate mapping:
`renderedPos = client - bbox origin`, `modelPos = (renderedPos - pan) / zoom`
per axis. -/
def toModelCoordinates (pointer : Pos) (origin : Pos) (pan : Pos) (zoom : ℚ) :
    Pos :=
  let renderedPos : Pos := ⟨pointer.x - origin.x, pointer.y - origin.y⟩
  ⟨(renderedPos.x - pan.x) / zoom, (renderedPos.y - pan.y) / zoom⟩

/-- Modelled from the spec: the rendering engine's forward transform — a model
point is rendered at `model * zoom + pan`, mapped into the container's
coordinate frame by adding the container origin. -/
def forwardTransform (m : Pos) (origin : Pos) (pan : Pos) (zoom : ℚ) : Pos :=
  ⟨m.x * zoom + pan.x + origin.x, m.y * zoom + pan.y + origin.y⟩

/-- `validNodeTypes`, as the palette payload strings the drop guard accepts. -/
def validNodeTypes : List String :=
  ["stochastic", "deterministic", "constant", "observed", "plate"]

/-- The `drop` listener: read the transferred payload kind; if it is one of
the valid node kinds, emit one `node-dropped` event with the payload kind and
the model-space position of the pointer; otherwise emit nothing. -/
def handleDrop (payload : String) (client : Pos) (bboxOrigin : Pos)
    (pan : Pos) (zoom : ℚ) : Option (String × Pos) :=
  if validNodeTypes.contains payload then
    some (payload, toModelCoordinates client bboxOrigin pan zoom)
  else none

/-! ## Basic lemmas about ids and the store primitives -/

theorem RElem.id_def (r : RElem) : r.id = r.data.id := rfl

theorem mkRElem_id (fe : CyElement) : (mkRElem fe).id = fe.id := by
  cases fe <;> rfl

theorem CyElement.id_data (fe : CyElement) : fe.data.id = fe.id := by
  cases fe <;> rfl

theorem formatOne_id (L : List GraphElement) (errs : ErrMap)
    (el : GraphElement) : (formatOne L errs el).id = el.id := by
  cases el <;> rfl

theorem format_ids (L : List GraphElement) (errs : ErrMap) :
    (formatElementsForCytoscape L errs).map CyElement.id =
      L.map GraphElement.id := by
  unfold formatElementsForCytoscape
  rw [List.map_map]
  exact List.map_congr_left (fun el _ => formatOne_id L errs el)

theorem findById_mem {es : List RElem} {i : String} {r : RElem}
    (h : findById es i = some r) : r ∈ es :=
  List.mem_of_find?_eq_some h

theorem findById_id {es : List RElem} {i : String} {r : RElem}
    (h : findById es i = some r) : r.id = i := by
  have := List.find?_some h
  simpa using this

theorem findById_eq_none {es : List RElem} {i : String} :
    findById es i = none ↔ ∀ r ∈ es, r.id ≠ i := by
  unfold findById
  rw [List.find?_eq_none]
  simp

theorem setFirst_of_findById {i : String} {r : RElem} {es : List RElem}
    (h : findById es i = some r) : setFirst i r es = es := by
  induction es with
  | nil => simp [findById] at h
  | cons e es ih =>
      by_cases he : (e.id == i) = true
      · unfold findById at h
        rw [List.find?_cons_of_pos (p := fun a : GraphCanvas.RElem => a.id == i) _ he] at h
        cases h
        simp [setFirst, he]
      · unfold findById at h
        rw [List.find?_cons_of_neg (p := fun a : GraphCanvas.RElem => a.id == i) _ he] at h
        simp only [setFirst, he, Bool.false_eq_true, if_false]
        rw [ih h]

theorem findById_setFirst_ne {i j : String} {r' : RElem} (es : List RElem)
    (hid : r'.id = i) (hne : j ≠ i) :
    findById (setFirst i r' es) j = findById es j := by
  induction es with
  | nil => rfl
  | cons e es ih =>
      by_cases he : (e.id == i) = true
      · have he' : e.id = i := by simpa using he
        simp only [setFirst, he, if_true]
        unfold findById
        rw [List.find?_cons_of_neg, List.find?_cons_of_neg]
        · simp [he', hne.symm]
        · simp [hid, hne.symm]
      · simp only [setFirst, he, Bool.false_eq_true, if_false]
        by_cases hej : (e.id == j) = true
        · unfold findById
          rw [List.find?_cons_of_pos (p := fun a : GraphCanvas.RElem => a.id == j) _ (by simpa using hej),
            List.find?_cons_of_pos (p := fun a : GraphCanvas.RElem => a.id == j) _ (by simpa using hej)]
        · unfold findById
          rw [List.find?_cons_of_neg (p := fun a : GraphCanvas.RElem => a.id == j) _ (by simpa using hej),
            List.find?_cons_of_neg (p := fun a : GraphCanvas.RElem => a.id == j) _ (by simpa using hej)]
          exact ih

theorem findById_setFirst_self {i : String} {r r' : RElem} {es : List RElem}
    (hid : r'.id = i) (h : findById es i = some r) :
    findById (setFirst i r' es) i = some r' := by
  induction es with
  | nil => simp [findById] at h
  | cons e es ih =>
      by_cases he : (e.id == i) = true
      · simp only [setFirst, he, if_true]
        unfold findById
        rw [List.find?_cons_of_pos]
        simp [hid]
      · simp only [setFirst, he, Bool.false_eq_true, if_false]
        unfold findById at h ⊢
        rw [List.find?_cons_of_neg (p := fun a : GraphCanvas.RElem => a.id == i) _ he] at h
        rw [List.find?_cons_of_neg (p := fun a : GraphCanvas.RElem => a.id == i) _ he]
        exact ih h

theorem map_id_setFirst {i : String} {r' : RElem} (es : List RElem)
    (hid : r'.id = i) :
    (setFirst i r' es).map RElem.id = es.map RElem.id := by
  induction es with
  | nil => rfl
  | cons e es ih =>
      by_cases he : (e.id == i) = true
      · have he' : e.id = i := by simpa using he
        simp [setFirst, he, hid, he']
      · simp [setFirst, he, ih]

theorem countP_setFirst {i : String} {r' : RElem} (es : List RElem)
    (hid : r'.id = i) (j : String) :
    (setFirst i r' es).countP (fun r => r.id == j) =
      es.countP (fun r => r.id == j) := by
  have h1 := map_id_setFirst es hid
  have h2 : ∀ l : List RElem,
      l.countP (fun r => r.id == j) =
        (l.map RElem.id).countP (fun s => s == j) := by
    intro l
    rw [List.countP_map]
    rfl
  rw [h2, h2, h1]

/-! ## The update branch and the sync step -/

/-- Normal form of the update branch on a node definition: the resulting
element always carries the incoming data, position and parent (the
conditionals only decide whether an operation is issued). -/
theorem updateExisting_nodeDef (r : RElem) (d : CyData) (p : Pos) :
    updateExisting r (.nodeDef d p) =
      (⟨r.group, d, p, d.parentOf⟩,
        (if p.x ≠ r.position.x ∨ p.y ≠ r.position.y
          then [Op.reposition d.id p] else []) ++
        (if d.parentOf ≠ r.parent
          then [Op.reparent d.id d.parentOf] else [])) := by
  by_cases hA : p.x ≠ r.position.x ∨ p.y ≠ r.position.y
  · by_cases hB : d.parentOf ≠ r.parent
    · simp [updateExisting, hA, hB, CyElement.id, CyElement.id_data]
    · push_neg at hB
      simp [updateExisting, hA, hB, CyElement.id, CyElement.id_data]
  · push_neg at hA
    obtain ⟨hx, hy⟩ := hA
    have hp : p = r.position := Pos.ext hx hy
    subst hp
    by_cases hB : d.parentOf ≠ r.parent
    · simp [updateExisting, hB, CyElement.id, CyElement.id_data]
    · push_neg at hB
      simp [updateExisting, hB, CyElement.id, CyElement.id_data]

theorem updateExisting_data (r : RElem) (fe : CyElement) :
    (updateExisting r fe).1.data = fe.data := by
  cases fe with
  | edgeDef d => rfl
  | nodeDef d p =>
      rw [updateExisting_nodeDef]
      rfl

theorem updateExisting_id (r : RElem) (fe : CyElement) :
    (updateExisting r fe).1.id = fe.id := by
  rw [RElem.id_def, updateExisting_data, CyElement.id_data]

/-- If the element already shows the incoming data, position and parent,
the update branch mutates nothing and issues no operation. -/
theorem updateExisting_noop (r : RElem) (fe : CyElement)
    (hd : r.data = fe.data)
    (hn : ∀ d p, fe = .nodeDef d p → r.position = p ∧ r.parent = d.parentOf) :
    updateExisting r fe = (r, []) := by
  cases fe with
  | edgeDef d =>
      have hd' : r.data = d := hd
      cases r
      simp only [updateExisting]
      simp_all
  | nodeDef d p =>
      obtain ⟨hp, hq⟩ := hn d p rfl
      have hd' : r.data = d := hd
      rw [updateExisting_nodeDef]
      rw [← hp, ← hq]
      cases r
      simp_all

theorem syncStep_pair (es : List RElem) (ops : List Op) (fe : CyElement) :
    syncStep (es, ops) fe = (syncStepE es fe, ops ++ syncStepOps es fe) := by
  unfold syncStepE syncStepOps syncStep
  by_cases h : fe.id = ""
  · simp [h]
  · simp only [h, if_false, if_neg]
    cases hf : findById es fe.id <;> simp

theorem foldl_syncStep (fes : List CyElement) (es : List RElem)
    (ops : List Op) :
    fes.foldl syncStep (es, ops) =
      (fes.foldl syncStepE es, ops ++ syncFoldOps es fes) := by
  induction fes generalizing es ops with
  | nil => simp [syncFoldOps]
  | cons fe fes ih =>
      simp only [List.foldl_cons, syncFoldOps]
      rw [syncStep_pair, ih, List.append_assoc]

/-- Frame property: a step for a different id leaves an id's resolution
untouched. -/
theorem syncStepE_findById_ne (es : List RElem) (fe : CyElement) {j : String}
    (hne : fe.id ≠ j) : findById (syncStepE es fe) j = findById es j := by
  unfold syncStepE syncStep
  by_cases h : fe.id = ""
  · simp [h]
  · simp only [h, if_false, if_neg]
    cases hf : findById es fe.id with
    | none =>
        dsimp only
        unfold findById
        rw [List.find?_append]
        have hsing : List.find? (fun a : RElem => a.id == j) [mkRElem fe]
            = none := by
          simp [mkRElem_id, hne]
        rw [hsing, Option.or_none]
    | some r =>
        dsimp only
        exact findById_setFirst_ne es (updateExisting_id r fe) (Ne.symm hne)

theorem syncFoldE_findById_ne (fes : List CyElement) (es : List RElem)
    {j : String} (h : ∀ fe ∈ fes, fe.id ≠ j) :
    findById (fes.foldl syncStepE es) j = findById es j := by
  induction fes generalizing es with
  | nil => rfl
  | cons fe fes ih =>
      simp only [List.foldl_cons]
      rw [ih _ (fun x hx => h x (List.mem_cons_of_mem _ hx)),
        syncStepE_findById_ne es fe (h fe (List.mem_cons_self _ _))]

/-- After its own step, an element with a non-empty id resolves to a stored
element showing exactly the incoming data (and, for nodes, the incoming
position and parent). -/
theorem syncStepE_establishes (es : List RElem) (fe : CyElement)
    (h : fe.id ≠ "") :
    ∃ r, findById (syncStepE es fe) fe.id = some r ∧ r.data = fe.data ∧
      ∀ d p, fe = .nodeDef d p → r.position = p ∧ r.parent = d.parentOf := by
  unfold syncStepE syncStep
  simp only [h, if_false, if_neg]
  cases hf : findById es fe.id with
  | none =>
      refine ⟨mkRElem fe, ?_, ?_, ?_⟩
      · dsimp only
        unfold findById
        rw [List.find?_append]
        have h1 := hf
        unfold findById at h1
        rw [h1, Option.none_or]
        simp [mkRElem_id]
      · cases fe <;> rfl
      · rintro d p rfl
        exact ⟨rfl, rfl⟩
  | some r =>
      refine ⟨(updateExisting r fe).1, ?_, updateExisting_data r fe, ?_⟩
      · dsimp only
        exact findById_setFirst_self (updateExisting_id r fe) hf
      · rintro d p rfl
        rw [updateExisting_nodeDef]
        exact ⟨rfl, rfl⟩

/-- A step whose incoming definition is already mirrored by the store (or
whose id is empty) changes nothing and issues no operations. -/
theorem syncStep_noop (es : List RElem) (fe : CyElement)
    (h : fe.id = "" ∨ ∃ r, findById es fe.id = some r ∧ r.data = fe.data ∧
      ∀ d p, fe = .nodeDef d p → r.position = p ∧ r.parent = d.parentOf) :
    syncStepE es fe = es ∧ syncStepOps es fe = [] := by
  by_cases h0 : fe.id = ""
  · constructor <;> simp [syncStepE, syncStepOps, syncStep, h0]
  · rcases h with h | ⟨r, hf, hd, hn⟩
    · exact absurd h h0
    · have hu : updateExisting r fe = (r, []) := updateExisting_noop r fe hd hn
      constructor
      · unfold syncStepE syncStep
        simp only [h0, if_false, if_neg]
        rw [hf]
        dsimp only
        rw [hu]
        exact setFirst_of_findById hf
      · unfold syncStepOps syncStep
        simp only [h0, if_false, if_neg]
        rw [hf]
        dsimp only
        rw [hu]
        rfl

/-! ## Counting, membership and operation-shape lemmas -/

theorem countP_syncStepE (es : List RElem) (fe : CyElement) (i : String) :
    (syncStepE es fe).countP (fun r => r.id == i) =
      if fe.id ≠ "" ∧ fe.id = i ∧ es.countP (fun r => r.id == i) = 0
      then 1 else es.countP (fun r => r.id == i) := by
  by_cases h0 : fe.id = ""
  · have hE : syncStepE es fe = es := by simp [syncStepE, syncStep, h0]
    rw [hE]
    simp [h0]
  · unfold syncStepE syncStep
    simp only [h0, if_false, if_neg]
    rcases hf : findById es fe.id with _ | r
    · dsimp only
      rw [List.countP_append, List.countP_singleton]
      have hz : es.countP (fun r => r.id == fe.id) = 0 := by
        rw [List.countP_eq_zero]
        intro r hr
        have := (findById_eq_none.mp hf) r hr
        simpa using this
      by_cases hi : fe.id = i
      · subst hi
        rw [hz]
        simp [mkRElem_id, h0, hz]
      · have hmk : ((mkRElem fe).id == i) = false := by
          simp [mkRElem_id, hi]
        rw [hmk]
        simp [hi]
    · dsimp only
      rw [countP_setFirst _ (updateExisting_id r fe)]
      have hpos : 0 < es.countP (fun a => a.id == fe.id) := by
        rw [List.countP_pos_iff]
        exact ⟨r, findById_mem hf, by simp [findById_id hf]⟩
      by_cases hi : fe.id = i
      · subst hi
        have hnz : ¬ es.countP (fun a => a.id == fe.id) = 0 := by omega
        simp [hnz]
      · simp [hi]

theorem countP_syncFoldE (fes : List CyElement) (es : List RElem)
    (i : String) :
    (fes.foldl syncStepE es).countP (fun r => r.id == i) =
      if i ≠ "" ∧ i ∈ fes.map CyElement.id ∧
          es.countP (fun r => r.id == i) = 0
      then 1 else es.countP (fun r => r.id == i) := by
  induction fes generalizing es with
  | nil => simp
  | cons fe fes ih =>
      simp only [List.foldl_cons]
      rw [ih, countP_syncStepE]
      by_cases hA : i = ""
      · simp [hA]
        exact fun h1 h2 _ => absurd h2 h1
      · by_cases hB : fe.id = i
        · subst hB
          by_cases hC : es.countP (fun r => r.id == fe.id) = 0
          · simp [hA, hC]
          · simp [hA, hC]
        · simp [hA, hB, Ne.symm hB]

theorem mem_setFirst {i : String} {r' x : RElem} {es : List RElem}
    (hx : x ∈ setFirst i r' es) : x ∈ es ∨ x = r' := by
  induction es with
  | nil => simp [setFirst] at hx
  | cons e es ih =>
      by_cases he : (e.id == i) = true
      · simp only [setFirst, he, if_true] at hx
        rcases List.mem_cons.mp hx with h | h
        · right; exact h
        · left; exact List.mem_cons_of_mem _ h
      · simp only [setFirst, he, Bool.false_eq_true, if_false] at hx
        rcases List.mem_cons.mp hx with h | h
        · left; rw [h]; exact List.mem_cons_self _ _
        · rcases ih h with h2 | h2
          · left; exact List.mem_cons_of_mem _ h2
          · right; exact h2

theorem syncStepE_mem_ids (es : List RElem) (fe : CyElement) (r : RElem)
    (hr : r ∈ syncStepE es fe) : r.id ∈ es.map RElem.id ∨ r.id = fe.id := by
  by_cases h0 : fe.id = ""
  · have hE : syncStepE es fe = es := by simp [syncStepE, syncStep, h0]
    rw [hE] at hr
    exact Or.inl (List.mem_map_of_mem _ hr)
  · unfold syncStepE syncStep at hr
    simp only [h0, if_false, if_neg] at hr
    rcases hf : findById es fe.id with _ | rr
    · rw [hf] at hr
      dsimp only at hr
      rcases List.mem_append.mp hr with h | h
      · exact Or.inl (List.mem_map_of_mem _ h)
      · right
        simp only [List.mem_singleton] at h
        rw [h, mkRElem_id]
    · rw [hf] at hr
      dsimp only at hr
      rcases mem_setFirst hr with h | h
      · exact Or.inl (List.mem_map_of_mem _ h)
      · right
        rw [h, updateExisting_id]

theorem syncFoldE_mem_ids (fes : List CyElement) (es : List RElem) (r : RElem)
    (hr : r ∈ fes.foldl syncStepE es) :
    r.id ∈ es.map RElem.id ∨ r.id ∈ fes.map CyElement.id := by
  induction fes generalizing es with
  | nil => exact Or.inl (List.mem_map_of_mem _ hr)
  | cons fe fes ih =>
      simp only [List.foldl_cons] at hr
      rcases ih _ hr with h | h
      · rcases List.mem_map.mp h with ⟨x, hx, hxid⟩
        rcases syncStepE_mem_ids es fe x hx with h2 | h2
        · exact Or.inl (hxid ▸ h2)
        · right
          rw [List.map_cons, ← hxid, h2]
          exact List.mem_cons_self _ _
      · right
        rw [List.map_cons]
        exact List.mem_cons_of_mem _ h

theorem syncStepOps_shape (es : List RElem) (fe : CyElement) (o : Op)
    (ho : o ∈ syncStepOps es fe) :
    o = Op.add fe.id ∨ (∃ p, o = Op.reposition fe.id p) ∨
      ∃ q, o = Op.reparent fe.id q := by
  by_cases h0 : fe.id = ""
  · simp [syncStepOps, syncStep, h0] at ho
  · unfold syncStepOps syncStep at ho
    simp only [h0, if_false, if_neg] at ho
    rcases hf : findById es fe.id with _ | r
    · rw [hf] at ho
      dsimp only at ho
      simp only [List.nil_append, List.mem_singleton] at ho
      exact Or.inl ho
    · rw [hf] at ho
      dsimp only at ho
      rw [List.nil_append] at ho
      cases fe with
      | edgeDef d => simp [updateExisting] at ho
      | nodeDef d p =>
          rw [updateExisting_nodeDef] at ho
          dsimp only at ho
          rcases List.mem_append.mp ho with h | h
          · right; left
            by_cases hc : p.x ≠ r.position.x ∨ p.y ≠ r.position.y
            · rw [if_pos hc] at h
              simp only [List.mem_singleton] at h
              exact ⟨p, h⟩
            · rw [if_neg hc] at h
              simp at h
          · right; right
            by_cases hc : d.parentOf ≠ r.parent
            · rw [if_pos hc] at h
              simp only [List.mem_singleton] at h
              exact ⟨d.parentOf, h⟩
            · rw [if_neg hc] at h
              simp at h

theorem syncFoldOps_shape (fes : List CyElement) (es : List RElem) (o : Op)
    (ho : o ∈ syncFoldOps es fes) :
    ∃ fe ∈ fes, o = Op.add fe.id ∨ (∃ p, o = Op.reposition fe.id p) ∨
      ∃ q, o = Op.reparent fe.id q := by
  induction fes generalizing es with
  | nil => simp [syncFoldOps] at ho
  | cons fe fes ih =>
      simp only [syncFoldOps] at ho
      rcases List.mem_append.mp ho with h | h
      · exact ⟨fe, List.mem_cons_self _ _, syncStepOps_shape es fe o h⟩
      · rcases ih _ h with ⟨fe', hmem, hsh⟩
        exact ⟨fe', List.mem_cons_of_mem _ hmem, hsh⟩

theorem syncFoldOps_append (xs ys : List CyElement) (es : List RElem) :
    syncFoldOps es (xs ++ ys) =
      syncFoldOps es xs ++ syncFoldOps (xs.foldl syncStepE es) ys := by
  induction xs generalizing es with
  | nil => simp [syncFoldOps]
  | cons x xs ih =>
      simp only [List.cons_append, syncFoldOps, List.foldl_cons,
        List.append_eq]
      rw [ih, List.append_assoc]

theorem findById_filter (q : RElem → Bool) (es : List RElem) {i : String}
    {r : RElem} (h : findById es i = some r) (hq : q r = true) :
    findById (es.filter q) i = some r := by
  induction es with
  | nil => simp [findById] at h
  | cons e es ih =>
      by_cases he : (e.id == i) = true
      · unfold findById at h
        rw [List.find?_cons_of_pos (p := fun a : GraphCanvas.RElem => a.id == i)
          _ he] at h
        cases h
        unfold findById
        rw [List.filter_cons_of_pos hq,
          List.find?_cons_of_pos (p := fun a : GraphCanvas.RElem => a.id == i)
            _ he]
      · unfold findById at h
        rw [List.find?_cons_of_neg (p := fun a : GraphCanvas.RElem => a.id == i)
          _ he] at h
        by_cases hqe : q e = true
        · rw [List.filter_cons_of_pos hqe]
          unfold findById
          rw [List.find?_cons_of_neg
            (p := fun a : GraphCanvas.RElem => a.id == i) _ he]
          exact ih h
        · rw [List.filter_cons_of_neg (by simpa using hqe)]
          exact ih h

theorem nodup_middle_ne {α β : Type} (f : α → β) (L₁ L₂ : List α) (a : α)
    (h : ((L₁ ++ a :: L₂).map f).Nodup) :
    (∀ x ∈ L₁, f x ≠ f a) ∧ ∀ x ∈ L₂, f x ≠ f a := by
  rw [List.map_append, List.map_cons, List.nodup_append] at h
  obtain ⟨h1, h2, hdisj⟩ := h
  constructor
  · intro x hx hfx
    exact hdisj (List.mem_map_of_mem f hx) (hfx ▸ List.mem_cons_self _ _)
  · intro x hx hfx
    have hnc := List.nodup_cons.mp h2
    exact hnc.1 (hfx ▸ List.mem_map_of_mem f hx)

theorem mem_eq_of_findById {es : List RElem} {i : String} {r r' : RElem}
    (hfind : findById es i = some r')
    (hcount : es.countP (fun a => a.id == i) ≤ 1)
    (hr : r ∈ es) (hid : r.id = i) : r = r' := by
  induction es with
  | nil => simp at hr
  | cons e es ih =>
      by_cases he : (e.id == i) = true
      · unfold findById at hfind
        rw [List.find?_cons_of_pos (p := fun a : GraphCanvas.RElem => a.id == i)
          _ he] at hfind
        cases hfind
        rcases List.mem_cons.mp hr with h | h
        · exact h
        · exfalso
          have hpos : 0 < es.countP (fun a => a.id == i) :=
            List.countP_pos_iff.mpr ⟨r, h, by simp [hid]⟩
          rw [List.countP_cons_of_pos
            (p := fun a : GraphCanvas.RElem => a.id == i) _ he] at hcount
          omega
      · unfold findById at hfind
        rw [List.find?_cons_of_neg (p := fun a : GraphCanvas.RElem => a.id == i)
          _ he] at hfind
        rcases List.mem_cons.mp hr with h | h
        · exfalso
          rw [h] at hid
          simp [hid] at he
        · refine ih hfind ?_ h
          rw [List.countP_cons] at hcount
          omega

/-! ## Remaining auxiliary lemmas -/

theorem contains_iff_mem_str {l : List String} {a : String} :
    l.contains a = true ↔ a ∈ l := by
  rw [List.contains_iff_exists_mem_beq]
  simp

theorem syncGraphWithProps_eq (g : List RElem) (L : List GraphElement)
    (errs : ErrMap) :
    syncGraphWithProps g L errs =
      ((formatElementsForCytoscape L errs).foldl syncStepE
          (g.filter (fun r => (L.map GraphElement.id).contains r.id)),
        ((g.filter (fun r => !((L.map GraphElement.id).contains r.id))).map
            (fun r => Op.remove r.id)) ++
          syncFoldOps
            (g.filter (fun r => (L.map GraphElement.id).contains r.id))
            (formatElementsForCytoscape L errs)) := by
  simp only [syncGraphWithProps]
  rw [foldl_syncStep]

theorem countP_filter_contains (g : List RElem) (ids : List String)
    (i : String) :
    (g.filter (fun r => ids.contains r.id)).countP (fun r => r.id == i) =
      if i ∈ ids then g.countP (fun r => r.id == i) else 0 := by
  rw [List.countP_filter]
  by_cases hi : i ∈ ids
  · rw [if_pos hi]
    apply List.countP_congr
    intro r _
    constructor
    · intro h
      simp only [Bool.and_eq_true] at h
      exact h.1
    · intro h
      have hri : r.id = i := by simpa using h
      simp only [Bool.and_eq_true]
      exact ⟨h, by rw [hri]; exact contains_iff_mem_str.mpr hi⟩
  · rw [if_neg hi, List.countP_eq_zero]
    intro r hr hcontra
    simp only [Bool.and_eq_true] at hcontra
    obtain ⟨h1, h2⟩ := hcontra
    have hri : r.id = i := by simpa using h1
    exact hi (contains_iff_mem_str.mp (hri ▸ h2))

theorem countP_le_one_of_nodup (g : List RElem)
    (hg : (g.map RElem.id).Nodup) (i : String) :
    g.countP (fun r => r.id == i) ≤ 1 := by
  induction g with
  | nil => simp
  | cons e g ih =>
      rw [List.map_cons, List.nodup_cons] at hg
      obtain ⟨hne, hnd⟩ := hg
      by_cases he : (e.id == i) = true
      · have hei : e.id = i := by simpa using he
        have hz : g.countP (fun r => r.id == i) = 0 := by
          rw [List.countP_eq_zero]
          intro r hr hri
          apply hne
          have hri' : r.id = i := by simpa using hri
          rw [hei, ← hri']
          exact List.mem_map_of_mem _ hr
        rw [List.countP_cons_of_pos
          (p := fun a : GraphCanvas.RElem => a.id == i) _ he, hz]
      · rw [List.countP_cons_of_neg
          (p := fun a : GraphCanvas.RElem => a.id == i) _ he]
        exact ih hnd

/-- If the store already mirrors every incoming formatted element, the whole
loop leaves the store unchanged and issues no operations. -/
theorem syncFold_noop (fes : List CyElement) (es : List RElem)
    (h : ∀ fe ∈ fes, fe.id = "" ∨ ∃ r, findById es fe.id = some r ∧
      r.data = fe.data ∧ ∀ d p, fe = .nodeDef d p →
        r.position = p ∧ r.parent = d.parentOf) :
    fes.foldl syncStepE es = es ∧ syncFoldOps es fes = [] := by
  induction fes with
  | nil => exact ⟨rfl, rfl⟩
  | cons fe fes ih =>
      have h1 := syncStep_noop es fe (h fe (List.mem_cons_self _ _))
      simp only [List.foldl_cons, syncFoldOps, h1.1, h1.2, List.nil_append]
      exact ih (fun x hx => h x (List.mem_cons_of_mem _ hx))

/-! ## Claims -/

/-- **C5**: the drop coordinate mapping
`modelPosition = (pointerPosition − containerOrigin − pan) / zoom` exactly
inverts the rendering engine's forward transform: for every pan, every
zoom > 0 and every model point, mapping the rendered point back through
`toModelCoordinates` returns the model point (exactly, over ℚ). -/
theorem coordinate_inversion (m origin pan : Pos) (zoom : ℚ)
    (hz : 0 < zoom) :
    toModelCoordinates (forwardTransform m origin pan zoom) origin pan zoom
      = m := by
  have hz' : zoom ≠ 0 := ne_of_gt hz
  unfold toModelCoordinates forwardTransform
  dsimp only
  ext
  · dsimp only
    field_simp
  · dsimp only
    field_simp

theorem coordinate_inversion_witness :
    0 < (2 : ℚ) ∧
      toModelCoordinates (forwardTransform ⟨3, 4⟩ ⟨5, 6⟩ ⟨7, 8⟩ 2)
        ⟨5, 6⟩ ⟨7, 8⟩ 2 = ⟨3, 4⟩ :=
  ⟨by norm_num, coordinate_inversion ⟨3, 4⟩ ⟨5, 6⟩ ⟨7, 8⟩ 2 (by norm_num)⟩

/-- **C7** (counterexample): after `resetView` with the engine computing a
fit zoom of 2, the reported zoom is 1 while the engine's actual zoom is 2 —
the claim's "always equal after every viewport operation" fails for
`resetView`. -/
theorem zoom_tracking_counterexample :
    (resetView ⟨1, 1⟩ 2).currentZoom ≠ (resetView ⟨1, 1⟩ 2).engineZoom := by
  decide

/-- **C7** (amended): the reported zoom equals the engine's actual zoom after
`zoomIn`, `zoomOut`, `setZoomLevel` and after any externally originated zoom
change (mirrored through the engine's zoom notification); after `resetView`
the reported zoom is the conventional value 1, while the engine holds the
fit-to-content zoom it computed. -/
theorem zoom_tracking (s : ViewState) (v : ℚ) :
    (zoomIn s).currentZoom = (zoomIn s).engineZoom ∧
    (zoomOut s).currentZoom = (zoomOut s).engineZoom ∧
    (setZoomLevel s v).currentZoom = (setZoomLevel s v).engineZoom ∧
    (externalZoom s v).currentZoom = (externalZoom s v).engineZoom ∧
    (resetView s v).currentZoom = 1 ∧ (resetView s v).engineZoom = v :=
  ⟨rfl, rfl, rfl, rfl, rfl, rfl⟩

/-- **C8**: starting from a state whose zoom lies in `[minZoom, maxZoom]`
(= [0.1, 2]) with the reported zoom in sync, any number of `zoomIn()` calls
keeps both the engine zoom and the reported zoom ≤ 2, and any number of
`zoomOut()` calls keeps both ≥ 0.1. -/
theorem zoom_clamping (s : ViewState) (hlo : minZoom ≤ s.engineZoom)
    (hhi : s.engineZoom ≤ maxZoom) (hsync : s.currentZoom = s.engineZoom) :
    (∀ n, (zoomInN s n).engineZoom ≤ maxZoom ∧
      (zoomInN s n).currentZoom ≤ maxZoom) ∧
    ∀ n, minZoom ≤ (zoomOutN s n).engineZoom ∧
      minZoom ≤ (zoomOutN s n).currentZoom := by
  constructor
  · intro n
    induction n with
    | zero => exact ⟨hhi, hsync.trans_le hhi⟩
    | succ k ihk =>
        have h1 : (zoomInN s (k + 1)).engineZoom =
            min ((zoomInN s k).engineZoom * 1.2) maxZoom := rfl
        have h2 : (zoomInN s (k + 1)).currentZoom =
            min ((zoomInN s k).engineZoom * 1.2) maxZoom := rfl
        rw [h1, h2]
        exact ⟨min_le_right _ _, min_le_right _ _⟩
  · intro n
    induction n with
    | zero => exact ⟨hlo, hsync ▸ hlo⟩
    | succ k ihk =>
        have h1 : (zoomOutN s (k + 1)).engineZoom =
            max ((zoomOutN s k).engineZoom / 1.2) minZoom := rfl
        have h2 : (zoomOutN s (k + 1)).currentZoom =
            max ((zoomOutN s k).engineZoom / 1.2) minZoom := rfl
        rw [h1, h2]
        exact ⟨le_max_right _ _, le_max_right _ _⟩

theorem zoom_clamping_witness :
    (minZoom ≤ (1 : ℚ) ∧ (1 : ℚ) ≤ maxZoom) ∧
      (zoomInN ⟨1, 1⟩ 5).engineZoom ≤ maxZoom ∧
      minZoom ≤ (zoomOutN ⟨1, 1⟩ 5).engineZoom :=
  ⟨⟨by norm_num [minZoom], by norm_num [maxZoom]⟩,
    ((zoom_clamping ⟨1, 1⟩ (by norm_num [minZoom]) (by norm_num [maxZoom])
      rfl).1 5).1,
    ((zoom_clamping ⟨1, 1⟩ (by norm_num [minZoom]) (by norm_num [maxZoom])
      rfl).2 5).1⟩

/-- **C9**: a drop whose payload kind is one of the five valid node kinds
emits exactly one `node-dropped` event carrying that kind and the model-space
position obtained from the coordinate transform; a drop with any other
payload kind emits no event. -/
theorem drop_payload_filtering (payload : String)
    (client bboxOrigin pan : Pos) (zoom : ℚ) :
    (payload ∈ validNodeTypes →
      handleDrop payload client bboxOrigin pan zoom =
        some (payload, toModelCoordinates client bboxOrigin pan zoom)) ∧
    (payload ∉ validNodeTypes →
      handleDrop payload client bboxOrigin pan zoom = none) := by
  constructor
  · intro h
    have hb : validNodeTypes.contains payload = true :=
      contains_iff_mem_str.mpr h
    simp only [handleDrop, hb, if_true]
  · intro h
    have hb : validNodeTypes.contains payload = false := by
      cases hc : validNodeTypes.contains payload
      · rfl
      · exact absurd (contains_iff_mem_str.mp hc) h
    simp only [handleDrop, hb, Bool.false_eq_true, if_false]

theorem drop_payload_filtering_witness :
    handleDrop "plate" ⟨10, 20⟩ ⟨1, 2⟩ ⟨3, 4⟩ 2 =
        some ("plate", toModelCoordinates ⟨10, 20⟩ ⟨1, 2⟩ ⟨3, 4⟩ 2) ∧
      handleDrop "table" ⟨10, 20⟩ ⟨1, 2⟩ ⟨3, 4⟩ 2 = none :=
  ⟨(drop_payload_filtering "plate" ⟨10, 20⟩ ⟨1, 2⟩ ⟨3, 4⟩ 2).1 (by decide),
    (drop_payload_filtering "table" ⟨10, 20⟩ ⟨1, 2⟩ ⟨3, 4⟩ 2).2 (by decide)⟩

/-- **C6** (counterexample): with the annotation map holding the entry
`"a" ↦ []` (an empty error sequence), the node with id `"a"` is formatted
with `hasError = true`, although the claim demands `false` when the mapped
sequence is empty. -/
theorem node_error_flag_counterexample :
    (formatOne [] [("a", [])]
        (.node ⟨"a", .stochastic, ⟨0, 0⟩, none, "a"⟩)).errorFlag = true ∧
      List.find? (fun pr => pr.1 == "a")
        [("a", ([] : List ValidationError))] = some ("a", []) := by
  constructor <;> decide

/-- **C6** (amended): the derived `hasError` flag of a formatted node is true
iff the annotation map has an entry keyed by the node's id — key presence
alone, regardless of whether the mapped error sequence is empty. -/
theorem node_error_flag (L : List GraphElement) (errs : ErrMap)
    (n : GraphNode) :
    (formatOne L errs (.node n)).errorFlag = true ↔
      ∃ pr ∈ errs, pr.1 = n.id := by
  simp [formatOne, CyElement.errorFlag, hasKey, List.any_eq_true]

/-- **C1** (counterexample): reconciling, over an empty rendering graph, the
singleton list holding a node whose id is the empty string leaves the
rendering graph empty, while the list's id set is {""} — the id sets differ,
so the mirror claim fails as stated for arbitrary lists. -/
theorem reconcile_mirror_counterexample :
    (syncGraphWithProps []
        [GraphElement.node ⟨"", .stochastic, ⟨0, 0⟩, none, ""⟩] []).1 = [] ∧
      "" ∈ ([GraphElement.node ⟨"", .stochastic, ⟨0, 0⟩, none, ""⟩].map
        GraphElement.id) := by
  constructor <;> decide

/-- **C1** (amended): for every element list whose elements all have
non-empty ids (elements with an empty id are defensively skipped), and any
rendering graph with engine-unique ids, after `syncGraphWithProps` the
rendering graph holds exactly one element per id of the list and no element
with an id outside the list; reconciling over the empty list always leaves
the rendering graph empty. -/
theorem reconcile_mirror (g : List RElem) (L : List GraphElement)
    (errs : ErrMap) (hg : (g.map RElem.id).Nodup)
    (hids : ∀ el ∈ L, GraphElement.id el ≠ "") :
    (∀ i, ((syncGraphWithProps g L errs).1.countP (fun r => r.id == i)) =
        if i ∈ L.map GraphElement.id then 1 else 0) ∧
    (L = [] → (syncGraphWithProps g L errs).1 = []) := by
  constructor
  · intro i
    rw [syncGraphWithProps_eq]
    dsimp only
    rw [countP_syncFoldE, format_ids, countP_filter_contains]
    by_cases hi : i ∈ L.map GraphElement.id
    · have hne : i ≠ "" := by
        rcases List.mem_map.mp hi with ⟨el, hel, helid⟩
        rw [← helid]
        exact hids el hel
      have hle := countP_le_one_of_nodup g hg i
      rw [if_pos hi, if_pos hi]
      by_cases hc : g.countP (fun r => r.id == i) = 0
      · rw [if_pos ⟨hne, hi, hc⟩]
      · rw [if_neg (by tauto)]
        omega
    · rw [if_neg hi, if_neg hi, if_neg (by tauto)]
  · rintro rfl
    rw [syncGraphWithProps_eq]
    dsimp only
    simp [formatElementsForCytoscape]

theorem reconcile_mirror_witness :
    ((([] : List RElem).map RElem.id).Nodup ∧
        ∀ el ∈ [GraphElement.node ⟨"a", .stochastic, ⟨1, 2⟩, none, "a"⟩],
          GraphElement.id el ≠ "") ∧
      (syncGraphWithProps []
          [GraphElement.node ⟨"a", .stochastic, ⟨1, 2⟩, none, "a"⟩]
          []).1.countP (fun r => r.id == "a") = 1 :=
  ⟨⟨by decide, by decide⟩, by
    simpa using
      (reconcile_mirror []
        [GraphElement.node ⟨"a", .stochastic, ⟨1, 2⟩, none, "a"⟩] []
        (by decide) (by decide)).1 "a"⟩

/-- **C2** (counterexample): with the duplicate-id list
`[node "a"@(0,0), node "a"@(1,0)]`, the second reconcile pass over the same
list and annotations again issues (reposition) operations, so idempotence
fails as stated for arbitrary element lists. -/
theorem reconcile_idempotent_counterexample :
    (syncGraphWithProps
        (syncGraphWithProps []
            [GraphElement.node ⟨"a", .stochastic, ⟨0, 0⟩, none, "a"⟩,
              GraphElement.node ⟨"a", .stochastic, ⟨1, 0⟩, none, "a"⟩]
            []).1
        [GraphElement.node ⟨"a", .stochastic, ⟨0, 0⟩, none, "a"⟩,
          GraphElement.node ⟨"a", .stochastic, ⟨1, 0⟩, none, "a"⟩]
        []).2 ≠ [] := by
  decide

/-- **C2** (amended): for every element list with pairwise-distinct ids and
every annotation map, reconciling the same list and annotations immediately
after a reconcile of the same inputs performs zero add, zero remove, zero
reposition and zero reparent operations: the second call's operation log is
empty. -/
theorem reconcile_idempotent (g : List RElem) (L : List GraphElement)
    (errs : ErrMap) (hnd : (L.map GraphElement.id).Nodup) :
    (syncGraphWithProps (syncGraphWithProps g L errs).1 L errs).2 = [] := by
  have hfmt_ids : (formatElementsForCytoscape L errs).map CyElement.id =
      L.map GraphElement.id := format_ids L errs
  have hg1eq : (syncGraphWithProps g L errs).1 =
      (formatElementsForCytoscape L errs).foldl syncStepE
        (g.filter (fun r => (L.map GraphElement.id).contains r.id)) := by
    rw [syncGraphWithProps_eq]
  have hA : ∀ r ∈ (syncGraphWithProps g L errs).1,
      (L.map GraphElement.id).contains r.id = true := by
    intro r hr
    rw [hg1eq] at hr
    rcases syncFoldE_mem_ids _ _ r hr with h | h
    · rcases List.mem_map.mp h with ⟨x, hx, hxid⟩
      have hpx := List.of_mem_filter hx
      rwa [hxid] at hpx
    · rw [hfmt_ids] at h
      exact contains_iff_mem_str.mpr h
  rw [syncGraphWithProps_eq]
  dsimp only
  have hrem : (syncGraphWithProps g L errs).1.filter
      (fun r => !((L.map GraphElement.id).contains r.id)) = [] := by
    rw [List.filter_eq_nil_iff]
    intro r hr
    rw [hA r hr]
    simp
  have hkeep : (syncGraphWithProps g L errs).1.filter
      (fun r => (L.map GraphElement.id).contains r.id) =
        (syncGraphWithProps g L errs).1 :=
    List.filter_eq_self.mpr hA
  rw [hrem, hkeep]
  simp only [List.map_nil, List.nil_append]
  refine (syncFold_noop (formatElementsForCytoscape L errs)
    (syncGraphWithProps g L errs).1 ?_).2
  intro fe hfe
  by_cases h0 : fe.id = ""
  · exact Or.inl h0
  · right
    obtain ⟨F₁, F₂, hdec⟩ := List.append_of_mem hfe
    have hndf : ((formatElementsForCytoscape L errs).map CyElement.id).Nodup := by
      rw [hfmt_ids]
      exact hnd
    have hmid := nodup_middle_ne CyElement.id F₁ F₂ fe
      (by rw [← hdec]; exact hndf)
    obtain ⟨r, hfr, hrdata, hrnode⟩ :=
      syncStepE_establishes
        (F₁.foldl syncStepE
          (g.filter (fun r => (L.map GraphElement.id).contains r.id)))
        fe h0
    refine ⟨r, ?_, hrdata, hrnode⟩
    rw [hg1eq, hdec, List.foldl_append, List.foldl_cons]
    rw [syncFoldE_findById_ne F₂ _ (fun x hx => hmid.2 x hx)]
    exact hfr

theorem reconcile_idempotent_witness :
    (([GraphElement.node ⟨"a", .stochastic, ⟨1, 2⟩, none, "a"⟩,
        GraphElement.edge ⟨"e", "a", "a"⟩].map GraphElement.id).Nodup) ∧
      (syncGraphWithProps
          (syncGraphWithProps []
              [GraphElement.node ⟨"a", .stochastic, ⟨1, 2⟩, none, "a"⟩,
                GraphElement.edge ⟨"e", "a", "a"⟩] []).1
          [GraphElement.node ⟨"a", .stochastic, ⟨1, 2⟩, none, "a"⟩,
            GraphElement.edge ⟨"e", "a", "a"⟩] []).2 = [] :=
  ⟨by decide,
    reconcile_idempotent []
      [GraphElement.node ⟨"a", .stochastic, ⟨1, 2⟩, none, "a"⟩,
        GraphElement.edge ⟨"e", "a", "a"⟩] [] (by decide)⟩

/-- Classification of every operation a sync pass can issue, relative to a
node `n` of the list that the store already resolves to `r`: each operation
is a remove, an add, a reposition/reparent for some other id, or one of the
conditional operations of `n`'s own update branch. -/
theorem stability_core (g : List RElem) (L : List GraphElement)
    (errs : ErrMap) (hnd : (L.map GraphElement.id).Nodup) (n : GraphNode)
    (hmem : GraphElement.node n ∈ L) (r : RElem)
    (hr : findById g n.id = some r) (o : Op)
    (ho : o ∈ (syncGraphWithProps g L errs).2) :
    (∃ j p', j ≠ n.id ∧ o = Op.reposition j p') ∨
    (∃ j q', j ≠ n.id ∧ o = Op.reparent j q') ∨
    (∃ j, o = Op.add j) ∨ (∃ j, o = Op.remove j) ∨
    o ∈ (updateExisting r (formatOne L errs (.node n))).2 := by
  obtain ⟨L₁, L₂, hdec⟩ := List.append_of_mem hmem
  subst hdec
  have hmid := nodup_middle_ne GraphElement.id L₁ L₂ (GraphElement.node n) hnd
  rw [syncGraphWithProps_eq] at ho
  dsimp only at ho
  rcases List.mem_append.mp ho with hrem | hsync
  · rcases List.mem_map.mp hrem with ⟨x, _, hx⟩
    exact Or.inr (Or.inr (Or.inr (Or.inl ⟨x.id, hx.symm⟩)))
  · have hfdec : formatElementsForCytoscape
        (L₁ ++ GraphElement.node n :: L₂) errs =
          L₁.map (formatOne (L₁ ++ GraphElement.node n :: L₂) errs) ++
            formatOne (L₁ ++ GraphElement.node n :: L₂) errs (.node n) ::
              L₂.map (formatOne (L₁ ++ GraphElement.node n :: L₂) errs) := by
      rw [formatElementsForCytoscape, List.map_append, List.map_cons]
    rw [hfdec, syncFoldOps_append] at hsync
    rcases List.mem_append.mp hsync with hA | hB
    · rcases syncFoldOps_shape _ _ _ hA with ⟨fe', hfe', hsh⟩
      rcases List.mem_map.mp hfe' with ⟨x, hx, hxfe⟩
      have hne : fe'.id ≠ n.id := by
        rw [← hxfe, formatOne_id]
        exact hmid.1 x hx
      rcases hsh with h | ⟨p', h⟩ | ⟨q', h⟩
      · exact Or.inr (Or.inr (Or.inl ⟨fe'.id, h⟩))
      · exact Or.inl ⟨fe'.id, p', hne, h⟩
      · exact Or.inr (Or.inl ⟨fe'.id, q', hne, h⟩)
    · simp only [syncFoldOps] at hB
      rcases List.mem_append.mp hB with hstep | hB2
      · have hfeid : (formatOne (L₁ ++ GraphElement.node n :: L₂) errs
            (.node n)).id = n.id := formatOne_id _ _ _
        by_cases h0 : n.id = ""
        · simp [syncStepOps, syncStep, hfeid, h0] at hstep
        · have hmemid : n.id ∈
              (L₁ ++ GraphElement.node n :: L₂).map GraphElement.id :=
            List.mem_map_of_mem GraphElement.id hmem
          have hcont : (((L₁ ++ GraphElement.node n :: L₂).map
              GraphElement.id).contains r.id) = true := by
            rw [findById_id hr]
            exact contains_iff_mem_str.mpr hmemid
          have hkept : findById
              (g.filter (fun a =>
                ((L₁ ++ GraphElement.node n :: L₂).map
                  GraphElement.id).contains a.id)) n.id = some r :=
            findById_filter _ g hr hcont
          have hesA : findById
              ((L₁.map (formatOne (L₁ ++ GraphElement.node n :: L₂)
                errs)).foldl syncStepE
                  (g.filter (fun a =>
                    ((L₁ ++ GraphElement.node n :: L₂).map
                      GraphElement.id).contains a.id))) n.id = some r := by
            rw [syncFoldE_findById_ne]
            · exact hkept
            · intro x hx
              rcases List.mem_map.mp hx with ⟨y, hy, rfl⟩
              rw [formatOne_id]
              exact hmid.1 y hy
          have hops : syncStepOps
              ((L₁.map (formatOne (L₁ ++ GraphElement.node n :: L₂)
                errs)).foldl syncStepE
                  (g.filter (fun a =>
                    ((L₁ ++ GraphElement.node n :: L₂).map
                      GraphElement.id).contains a.id)))
              (formatOne (L₁ ++ GraphElement.node n :: L₂) errs (.node n)) =
                (updateExisting r (formatOne
                  (L₁ ++ GraphElement.node n :: L₂) errs (.node n))).2 := by
            unfold syncStepOps syncStep
            rw [if_neg (by rw [hfeid]; exact h0)]
            dsimp only
            rw [hfeid, hesA]
            dsimp only
            rw [List.nil_append]
          rw [hops] at hstep
          exact Or.inr (Or.inr (Or.inr (Or.inr hstep)))
      · rcases syncFoldOps_shape _ _ _ hB2 with ⟨fe', hfe', hsh⟩
        rcases List.mem_map.mp hfe' with ⟨x, hx, hxfe⟩
        have hne : fe'.id ≠ n.id := by
          rw [← hxfe, formatOne_id]
          exact hmid.2 x hx
        rcases hsh with h | ⟨p', h⟩ | ⟨q', h⟩
        · exact Or.inr (Or.inr (Or.inl ⟨fe'.id, h⟩))
        · exact Or.inl ⟨fe'.id, p', hne, h⟩
        · exact Or.inr (Or.inl ⟨fe'.id, q', hne, h⟩)

/-- **C3**: for a node of the incoming list whose id the rendering graph
already resolves, if the node's incoming position equals its currently
rendered position, the sync pass issues no reposition operation for it; and
if its incoming parent equals its currently rendered parent, the pass issues
no reparent operation for it. -/
theorem position_stability (g : List RElem) (L : List GraphElement)
    (errs : ErrMap) (hnd : (L.map GraphElement.id).Nodup) (n : GraphNode)
    (hmem : GraphElement.node n ∈ L) (r : RElem)
    (hr : findById g n.id = some r) :
    (r.position = n.position →
      ∀ p, Op.reposition n.id p ∉ (syncGraphWithProps g L errs).2) ∧
    (r.parent = n.parent →
      ∀ q, Op.reparent n.id q ∉ (syncGraphWithProps g L errs).2) := by
  have hfmt : formatOne L errs (.node n) =
      .nodeDef (.nodeData n (hasKey errs n.id)) n.position := rfl
  constructor
  · intro hp p hop
    rcases stability_core g L errs hnd n hmem r hr _ hop with
      ⟨j, p', hj, he⟩ | ⟨j, q', hj, he⟩ | ⟨j, he⟩ | ⟨j, he⟩ | hupd
    · injection he with h1 h2
      exact hj h1.symm
    · cases he
    · cases he
    · cases he
    · rw [hfmt, updateExisting_nodeDef] at hupd
      dsimp only at hupd
      rw [hp] at hupd
      have hAfalse :
          ¬(n.position.x ≠ n.position.x ∨ n.position.y ≠ n.position.y) := by
        simp
      rw [if_neg hAfalse, List.nil_append] at hupd
      split at hupd
      · simp at hupd
      · simp at hupd
  · intro hq q hop
    rcases stability_core g L errs hnd n hmem r hr _ hop with
      ⟨j, p', hj, he⟩ | ⟨j, q', hj, he⟩ | ⟨j, he⟩ | ⟨j, he⟩ | hupd
    · cases he
    · injection he with h1 h2
      exact hj h1.symm
    · cases he
    · cases he
    · rw [hfmt, updateExisting_nodeDef] at hupd
      dsimp only [CyData.parentOf] at hupd
      rw [hq] at hupd
      have hBfalse : ¬(n.parent ≠ n.parent) := by simp
      rw [if_neg hBfalse, List.append_nil] at hupd
      split at hupd
      · simp at hupd
      · simp at hupd

theorem position_stability_witness :
    Op.reposition "a" ⟨5, 5⟩ ∉
        (syncGraphWithProps
          [⟨CyGroup.nodes,
            .nodeData ⟨"a", .stochastic, ⟨1, 2⟩, none, "a"⟩ false, ⟨1, 2⟩,
            none⟩]
          [GraphElement.node ⟨"a", .stochastic, ⟨1, 2⟩, none, "a"⟩]
          []).2 ∧
      Op.reparent "a" (some "p") ∉
        (syncGraphWithProps
          [⟨CyGroup.nodes,
            .nodeData ⟨"a", .stochastic, ⟨1, 2⟩, none, "a"⟩ false, ⟨1, 2⟩,
            none⟩]
          [GraphElement.node ⟨"a", .stochastic, ⟨1, 2⟩, none, "a"⟩]
          []).2 :=
  ⟨(position_stability
      [⟨CyGroup.nodes,
        .nodeData ⟨"a", .stochastic, ⟨1, 2⟩, none, "a"⟩ false, ⟨1, 2⟩, none⟩]
      [GraphElement.node ⟨"a", .stochastic, ⟨1, 2⟩, none, "a"⟩] []
      (by decide) ⟨"a", .stochastic, ⟨1, 2⟩, none, "a"⟩ (by decide)
      ⟨CyGroup.nodes,
        .nodeData ⟨"a", .stochastic, ⟨1, 2⟩, none, "a"⟩ false, ⟨1, 2⟩, none⟩
      (by decide)).1 rfl ⟨5, 5⟩,
    (position_stability
      [⟨CyGroup.nodes,
        .nodeData ⟨"a", .stochastic, ⟨1, 2⟩, none, "a"⟩ false, ⟨1, 2⟩, none⟩]
      [GraphElement.node ⟨"a", .stochastic, ⟨1, 2⟩, none, "a"⟩] []
      (by decide) ⟨"a", .stochastic, ⟨1, 2⟩, none, "a"⟩ (by decide)
      ⟨CyGroup.nodes,
        .nodeData ⟨"a", .stochastic, ⟨1, 2⟩, none, "a"⟩ false, ⟨1, 2⟩, none⟩
      (by decide)).2 rfl (some "p")⟩

/-- **C10**: when an id occurs more than once in the input list (here: `el`
is its last occurrence, and it also occurs in the prefix `L₁`), after the
sync the rendering graph — whose stored ids are engine-unique and non-empty —
contains at most one element with that id, and any such element carries the
data payload derived from the last occurrence and, for a node occurrence,
its position: later occurrences overwrite earlier ones instead of creating
duplicates. -/
theorem reconcile_last_occurrence (g : List RElem) (L : List GraphElement)
    (errs : ErrMap) (i : String) (hg : (g.map RElem.id).Nodup)
    (hge : ∀ r ∈ g, RElem.id r ≠ "") (L₁ L₂ : List GraphElement)
    (el : GraphElement) (hdec : L = L₁ ++ el :: L₂)
    (hid : GraphElement.id el = i)
    (hlast : ∀ x ∈ L₂, GraphElement.id x ≠ i)
    (hdup : ∃ el' ∈ L₁, GraphElement.id el' = i) :
    ((syncGraphWithProps g L errs).1.countP (fun r => r.id == i) ≤ 1) ∧
    ∀ r ∈ (syncGraphWithProps g L errs).1, r.id = i →
      r.data = (formatOne L errs el).data ∧
      ∀ m : GraphNode, el = .node m → r.position = m.position := by
  have hcount : (syncGraphWithProps g L errs).1.countP
      (fun r => r.id == i) ≤ 1 := by
    rw [syncGraphWithProps_eq]
    dsimp only
    rw [countP_syncFoldE, format_ids, countP_filter_contains]
    have hle := countP_le_one_of_nodup g hg i
    split_ifs <;> omega
  refine ⟨hcount, ?_⟩
  by_cases hi0 : i = ""
  · subst hi0
    intro r hr hri
    exfalso
    have hz : (syncGraphWithProps g L errs).1.countP
        (fun r => r.id == "") = 0 := by
      rw [syncGraphWithProps_eq]
      dsimp only
      rw [countP_syncFoldE, format_ids, countP_filter_contains]
      have hzg : g.countP (fun r => r.id == "") = 0 := by
        rw [List.countP_eq_zero]
        intro x hx hxe
        exact hge x hx (by simpa using hxe)
      rw [hzg]
      simp
    have hlt : 0 < (syncGraphWithProps g L errs).1.countP
        (fun a => a.id == "") :=
      List.countP_pos_iff.mpr ⟨r, hr, by simp [hri]⟩
    omega
  · subst hdec
    intro r hr hri
    have hfeid : (formatOne (L₁ ++ el :: L₂) errs el).id = i :=
      (formatOne_id _ _ _).trans hid
    have hfdec : formatElementsForCytoscape (L₁ ++ el :: L₂) errs =
        L₁.map (formatOne (L₁ ++ el :: L₂) errs) ++
          formatOne (L₁ ++ el :: L₂) errs el ::
            L₂.map (formatOne (L₁ ++ el :: L₂) errs) := by
      rw [formatElementsForCytoscape, List.map_append, List.map_cons]
    obtain ⟨rstar, hfind, hdata, hnode⟩ :=
      syncStepE_establishes
        ((L₁.map (formatOne (L₁ ++ el :: L₂) errs)).foldl syncStepE
          (g.filter (fun a =>
            ((L₁ ++ el :: L₂).map GraphElement.id).contains a.id)))
        (formatOne (L₁ ++ el :: L₂) errs el)
        (by rw [hfeid]; exact hi0)
    rw [hfeid] at hfind
    have hres : findById (syncGraphWithProps g (L₁ ++ el :: L₂) errs).1 i =
        some rstar := by
      rw [syncGraphWithProps_eq]
      dsimp only
      rw [hfdec, List.foldl_append, List.foldl_cons]
      rw [syncFoldE_findById_ne]
      · exact hfind
      · intro x hx
        rcases List.mem_map.mp hx with ⟨y, hy, rfl⟩
        rw [formatOne_id]
        exact hlast y hy
    have hreq : r = rstar := mem_eq_of_findById hres hcount hr hri
    subst hreq
    constructor
    · exact hdata
    · intro m hm
      subst hm
      exact (hnode (.nodeData m (hasKey errs m.id)) m.position rfl).1

theorem reconcile_last_occurrence_witness :
    ((syncGraphWithProps []
        [GraphElement.node ⟨"a", .stochastic, ⟨0, 0⟩, none, "a"⟩,
          GraphElement.node ⟨"a", .observed, ⟨3, 4⟩, none, "a"⟩]
        []).1.countP (fun r => r.id == "a") ≤ 1) ∧
      (⟨CyGroup.nodes,
          .nodeData ⟨"a", .observed, ⟨3, 4⟩, none, "a"⟩ false, ⟨3, 4⟩,
          none⟩ : RElem).position =
        (⟨"a", .observed, ⟨3, 4⟩, none, "a"⟩ : GraphNode).position :=
  ⟨(reconcile_last_occurrence []
      [GraphElement.node ⟨"a", .stochastic, ⟨0, 0⟩, none, "a"⟩,
        GraphElement.node ⟨"a", .observed, ⟨3, 4⟩, none, "a"⟩] [] "a"
      (by decide) (by decide)
      [GraphElement.node ⟨"a", .stochastic, ⟨0, 0⟩, none, "a"⟩] []
      (GraphElement.node ⟨"a", .observed, ⟨3, 4⟩, none, "a"⟩) rfl rfl
      (by decide)
      ⟨GraphElement.node ⟨"a", .stochastic, ⟨0, 0⟩, none, "a"⟩,
        by decide, rfl⟩).1,
    ((reconcile_last_occurrence []
      [GraphElement.node ⟨"a", .stochastic, ⟨0, 0⟩, none, "a"⟩,
        GraphElement.node ⟨"a", .observed, ⟨3, 4⟩, none, "a"⟩] [] "a"
      (by decide) (by decide)
      [GraphElement.node ⟨"a", .stochastic, ⟨0, 0⟩, none, "a"⟩] []
      (GraphElement.node ⟨"a", .observed, ⟨3, 4⟩, none, "a"⟩) rfl rfl
      (by decide)
      ⟨GraphElement.node ⟨"a", .stochastic, ⟨0, 0⟩, none, "a"⟩,
        by decide, rfl⟩).2
      ⟨CyGroup.nodes,
        .nodeData ⟨"a", .observed, ⟨3, 4⟩, none, "a"⟩ false, ⟨3, 4⟩, none⟩
      (by decide) rfl).2
      ⟨"a", .observed, ⟨3, 4⟩, none, "a"⟩ rfl⟩

/-- **C4**: under the data model's unique-id invariant, an edge is formatted
with relationshipType `stochastic` iff the list contains a node whose id
equals the edge's target and whose nodeType is `stochastic` or `observed`;
in every other case — including a target matching no node — the edge is
formatted `deterministic`.  The derivation is a pure function of the current
list, recomputed by every pass (nothing is carried over between passes). -/
theorem edge_relationship_derivation (L : List GraphElement) (errs : ErrMap)
    (e : GraphEdge) (hnd : (L.map GraphElement.id).Nodup) :
    ((formatOne L errs (.edge e) = .edgeDef (.edgeData e .stochastic) ↔
      ∃ n : GraphNode, GraphElement.node n ∈ L ∧ n.id = e.target ∧
        (n.nodeType = .stochastic ∨ n.nodeType = .observed)) ∧
    (formatOne L errs (.edge e) = .edgeDef (.edgeData e .stochastic) ∨
      formatOne L errs (.edge e) = .edgeDef (.edgeData e .deterministic))) ∧
    ∀ g : List RElem, GraphElement.edge e ∈ L → e.id ≠ "" →
      ∃ r, findById (syncGraphWithProps g L errs).1 e.id = some r ∧
        r.data = (formatOne L errs (.edge e)).data := by
  have hfresh : ∀ g : List RElem, GraphElement.edge e ∈ L → e.id ≠ "" →
      ∃ r, findById (syncGraphWithProps g L errs).1 e.id = some r ∧
        r.data = (formatOne L errs (.edge e)).data := by
    intro g hmem hne
    obtain ⟨L₁, L₂, hdec⟩ := List.append_of_mem hmem
    subst hdec
    have hmid := nodup_middle_ne GraphElement.id L₁ L₂
      (GraphElement.edge e) hnd
    have hfeid : (formatOne (L₁ ++ GraphElement.edge e :: L₂) errs
        (.edge e)).id = e.id := formatOne_id _ _ _
    have hfdec : formatElementsForCytoscape
        (L₁ ++ GraphElement.edge e :: L₂) errs =
          L₁.map (formatOne (L₁ ++ GraphElement.edge e :: L₂) errs) ++
            formatOne (L₁ ++ GraphElement.edge e :: L₂) errs (.edge e) ::
              L₂.map (formatOne (L₁ ++ GraphElement.edge e :: L₂) errs) := by
      rw [formatElementsForCytoscape, List.map_append, List.map_cons]
    obtain ⟨r, hfind, hdata, _⟩ :=
      syncStepE_establishes
        ((L₁.map (formatOne (L₁ ++ GraphElement.edge e :: L₂) errs)).foldl
          syncStepE
          (g.filter (fun a =>
            ((L₁ ++ GraphElement.edge e :: L₂).map
              GraphElement.id).contains a.id)))
        (formatOne (L₁ ++ GraphElement.edge e :: L₂) errs (.edge e))
        (by rw [hfeid]; exact hne)
    rw [hfeid] at hfind
    refine ⟨r, ?_, hdata⟩
    rw [syncGraphWithProps_eq]
    dsimp only
    rw [hfdec, List.foldl_append, List.foldl_cons]
    rw [syncFoldE_findById_ne]
    · exact hfind
    · intro x hx
      rcases List.mem_map.mp hx with ⟨y, hy, rfl⟩
      rw [formatOne_id]
      exact hmid.2 y hy
  refine ⟨?_, hfresh⟩
  rcases hfind : L.find? (fun el => el.id == e.target && el.isNode)
    with _ | el₀
  · have hfmt : formatOne L errs (.edge e) =
        .edgeDef (.edgeData e .deterministic) := by
      simp [formatOne, hfind]
    refine ⟨?_, Or.inr hfmt⟩
    rw [hfmt]
    constructor
    · intro h
      cases h
    · rintro ⟨n, hm, hidt, _⟩
      exfalso
      have := List.find?_eq_none.mp hfind (GraphElement.node n) hm
      apply this
      simp [GraphElement.isNode, GraphElement.id, hidt]
  · have hP := List.find?_some hfind
    simp only [Bool.and_eq_true] at hP
    obtain ⟨hPid, hPnode⟩ := hP
    cases el₀ with
    | edge e₀ => simp [GraphElement.isNode] at hPnode
    | node n₀ =>
        have hid₀ : n₀.id = e.target := by simpa [GraphElement.id] using hPid
        by_cases hb : (n₀.nodeType == NodeType.stochastic ||
            n₀.nodeType == NodeType.observed) = true
        · have hfmt : formatOne L errs (.edge e) =
              .edgeDef (.edgeData e .stochastic) := by
            simp [formatOne, hfind, GraphElement.asNode, hb]
          refine ⟨?_, Or.inl hfmt⟩
          rw [hfmt]
          constructor
          · intro _
            refine ⟨n₀, List.mem_of_find?_eq_some hfind, hid₀, ?_⟩
            rcases Bool.or_eq_true_iff.mp hb with h | h
            · exact Or.inl (by simpa using h)
            · exact Or.inr (by simpa using h)
          · intro _
            rfl
        · have hfmt : formatOne L errs (.edge e) =
              .edgeDef (.edgeData e .deterministic) := by
            simp [formatOne, hfind, GraphElement.asNode, hb]
          refine ⟨?_, Or.inr hfmt⟩
          rw [hfmt]
          constructor
          · intro h
            cases h
          · rintro ⟨n, hm, hidt, htype⟩
            exfalso
            have heq : GraphElement.node n = GraphElement.node n₀ := by
              apply List.inj_on_of_nodup_map hnd hm
                (List.mem_of_find?_eq_some hfind)
              show n.id = n₀.id
              rw [hidt, hid₀]
            have hnn : n = n₀ := by
              injection heq
            apply hb
            rw [← hnn]
            rcases htype with h | h
            · rw [h]
              rfl
            · rw [h]
              rfl

theorem edge_relationship_derivation_witness :
    (([GraphElement.node ⟨"t", .observed, ⟨0, 0⟩, none, "t"⟩,
        GraphElement.edge ⟨"e", "s", "t"⟩].map GraphElement.id).Nodup) ∧
      formatOne
        [GraphElement.node ⟨"t", .observed, ⟨0, 0⟩, none, "t"⟩,
          GraphElement.edge ⟨"e", "s", "t"⟩] []
        (.edge ⟨"e", "s", "t"⟩) =
      .edgeDef (.edgeData ⟨"e", "s", "t"⟩ .stochastic) :=
  ⟨by decide,
    (edge_relationship_derivation
      [GraphElement.node ⟨"t", .observed, ⟨0, 0⟩, none, "t"⟩,
        GraphElement.edge ⟨"e", "s", "t"⟩] [] ⟨"e", "s", "t"⟩
      (by decide)).1.1.mpr
      ⟨⟨"t", .observed, ⟨0, 0⟩, none, "t"⟩, by decide, rfl, Or.inr rfl⟩⟩

end GraphCanvas
